import Mathlib

/-!
# Verification of the ACX audiobook batch processor

Shallow embedding of the transform-decision pipeline of the repository
(`acx-fix-v1.py`, `acx-fix-v1b.py`, `acx.py`): duplicate detection by content
digest, batch channel policy, loudness gain computation, time-bounded
segmentation, export naming, and the per-file processing loop.

Durations are modelled as natural numbers of milliseconds (the scripts work in
integral milliseconds through `pydub`).  `math.ceil(total_ms / chunk_ms)` is
modelled as exact ceiling division on naturals.  dBFS values, which are IEEE
doubles in the source, are modelled by `PyFloat`: an exact rational for finite
values plus the two infinities, which is enough to express the gain formula
`TARGET_RMS_DBFS - audio.dBFS` including the silent-input case
(`audio.dBFS == -inf`).
-/

/-- A value of Python's `float` as it occurs in this program: a finite value
(represented exactly as a rational) or one of the two infinities.  pydub
reports `dBFS = -inf` for pure silence. -/
inductive PyFloat where
  | fin (q : ℚ)
  | negInf
  | posInf
deriving DecidableEq, Repr

/-- One entry of the `meta` list built by `analyze_directory`
(`acx-fix-v1.py` lines 35-41): the dict
`{"path": full, "duration": len(audio), "channels": audio.channels,
  "dBFS": audio.dBFS, "md5": compute_md5(audio)}`. -/
structure AudioRecord where
  path : String
  duration : ℕ
  channels : ℕ
  dBFS : PyFloat
  md5 : String
deriving DecidableEq, Repr

/-- A decoded `AudioSegment` as the scripts use it: raw PCM bytes, channel
count, length in milliseconds and measured loudness. -/
structure AudioSegmentData where
  raw_data : List ℕ
  channels : ℕ
  length_ms : ℕ
  dBFS : PyFloat
deriving DecidableEq, Repr

/-- `TARGET_RMS_DBFS = -20.0` (`acx-fix-v1.py` line 11). -/
def TARGET_RMS_DBFS : ℚ := -20

/-- `MAX_DURATION_MS = 120 * 60 * 1000` (`acx-fix-v1.py` line 12). -/
def MAX_DURATION_MS : ℕ := 120 * 60 * 1000

/-- `MARGIN_MS = 2 * 1000` (`acx-fix-v1b.py` line 155). -/
def MARGIN_MS : ℕ := 2 * 1000

/-- `CHUNK_SIZE_MS = MAX_DURATION_MS - MARGIN_MS` (`acx-fix-v1b.py` line 156),
i.e. 119 minutes 58 seconds. -/
def CHUNK_SIZE_MS : ℕ := MAX_DURATION_MS - MARGIN_MS

/-- Ceiling division on naturals; models `math.ceil(total_ms / chunk_ms)` for
positive integral `chunk_ms`. -/
def ceil_div (d c : ℕ) : ℕ := (d + c - 1) / c

/-- `split_into_chunks` (`acx-fix-v1.py` lines 60-67 and `acx-fix-v1b.py`
lines 204-211, identical except for the chunk-size constant, here the
parameter `c`): `parts = math.ceil(total_ms / c)`, and for `i in range(parts)`
the slice from `i*c` to `min((i+1)*c, total_ms)`.  Segments are represented by
their `(start_ms, end_ms)` boundaries, `end_ms` exclusive. -/
def split_into_chunks (d c : ℕ) : List (ℕ × ℕ) :=
  (List.range (ceil_div d c)).map (fun i => (i * c, min ((i + 1) * c) d))

/-- Python's `range(start, stop, step)` for a positive step. -/
def pyRange (start stop step : ℕ) : List ℕ :=
  if h : 0 < step ∧ start < stop then start :: pyRange (start + step) stop step else []
termination_by stop - start
decreasing_by omega

/-- The splitting branch of `process_file` in `acx.py` (lines 372-378): the
whole buffer as a single segment when `len(audio) <= MAX_DURATION_MS`,
otherwise the slices `audio[i : i + c]` for `i in range(0, len(audio), c)`
(Python slicing clamps the end at the buffer length). -/
def process_split (d c : ℕ) : List (ℕ × ℕ) :=
  if c < d then (pyRange 0 d c).map (fun i => (i, min (i + c) d)) else [(0, d)]

lemma lt_ceil_div_iff {i d c : ℕ} (hc : 0 < c) : i < ceil_div d c ↔ i * c < d := by
  unfold ceil_div
  rw [Nat.lt_iff_add_one_le, Nat.le_div_iff_mul_le hc]
  have h : (i + 1) * c = i * c + c := by ring
  omega

lemma split_into_chunks_length (d c : ℕ) :
    (split_into_chunks d c).length = ceil_div d c := by
  simp [split_into_chunks]

lemma split_into_chunks_get (d c i : ℕ) (h : i < (split_into_chunks d c).length) :
    (split_into_chunks d c).get ⟨i, h⟩ = (i * c, min ((i + 1) * c) d) := by
  simp [split_into_chunks, List.get_eq_getElem]

lemma mem_split_into_chunks {d c : ℕ} {p : ℕ × ℕ} :
    p ∈ split_into_chunks d c ↔
      ∃ i, i < ceil_div d c ∧ p = (i * c, min ((i + 1) * c) d) := by
  simp [split_into_chunks, List.mem_map, List.mem_range, eq_comm]

lemma ceil_div_step {m c : ℕ} (hc : 0 < c) (hm : 0 < m) :
    ceil_div m c = ceil_div (m - c) c + 1 := by
  unfold ceil_div
  rcases le_or_lt m c with h | h
  · have h1 : m - c = 0 := by omega
    rw [h1]
    have h2 : m + c - 1 = (m - 1) + c := by omega
    rw [h2, Nat.add_div_right _ hc, Nat.div_eq_of_lt (by omega)]
    have h3 : 0 + c - 1 = c - 1 := by omega
    rw [h3, Nat.div_eq_of_lt (by omega)]
  · have h2 : m + c - 1 = ((m - c) + c - 1) + c := by omega
    rw [h2, Nat.add_div_right _ hc]

lemma pyRange_eq {c : ℕ} (hc : 0 < c) :
    ∀ (n start d : ℕ), d - start = n →
      pyRange start d c =
        (List.range (ceil_div (d - start) c)).map (fun i => start + i * c) := by
  intro n
  induction n using Nat.strong_induction_on with
  | _ n ih =>
    intro start d hn
    by_cases h : start < d
    · rw [pyRange, dif_pos ⟨hc, h⟩,
        ih (d - (start + c)) (by omega) (start + c) d rfl]
      have hstep : ceil_div (d - start) c = ceil_div (d - start - c) c + 1 :=
        ceil_div_step hc (by omega)
      have harg : d - (start + c) = d - start - c := by omega
      rw [harg, hstep, List.range_succ_eq_map, List.map_cons, List.map_map]
      have hhead : start + 0 * c = start := by ring
      have hfun : ∀ i ∈ List.range (ceil_div (d - start - c) c),
          ((fun i => start + i * c) ∘ Nat.succ) i = (fun i => start + c + i * c) i := by
        intro i _
        simp [Function.comp, Nat.succ_eq_add_one]
        ring
      rw [hhead, List.map_congr_left hfun]
    · rw [pyRange, dif_neg (by omega)]
      have h0 : d - start = 0 := by omega
      rw [h0]
      have : ceil_div 0 c = 0 := by
        unfold ceil_div
        exact Nat.div_eq_of_lt (by omega)
      rw [this]
      simp

/-- The two segmentation loops agree on every positive duration. -/
lemma split_agree_aux {d c : ℕ} (hd : 0 < d) (hc : 0 < c) :
    split_into_chunks d c = process_split d c := by
  unfold process_split
  by_cases h : c < d
  · rw [if_pos h, pyRange_eq hc d 0 d rfl]
    unfold split_into_chunks
    rw [List.map_map]
    have hz : d - 0 = d := by omega
    rw [hz]
    apply List.map_congr_left
    intro i _
    have e1 : 0 + i * c = i * c := by ring
    have e2 : 0 + i * c + c = (i + 1) * c := by ring
    simp only [Function.comp, e1]
    rw [← e2]
    have e3 : 0 + i * c = i * c := by ring
    rw [e3]
  · rw [if_neg h]
    have h0 : (0 : ℕ) < ceil_div d c ↔ 0 * c < d := lt_ceil_div_iff hc
    have h1 : (1 : ℕ) < ceil_div d c ↔ 1 * c < d := lt_ceil_div_iff hc
    have hone : ceil_div d c = 1 := by omega
    unfold split_into_chunks
    rw [hone]
    have hr : List.range 1 = [0] := rfl
    rw [hr, List.map_cons, List.map_nil]
    have e1 : (0 : ℕ) * c = 0 := by ring
    have e2 : min ((0 + 1) * c) d = d := by
      have hcc : (0 + 1) * c = c := by ring
      omega
    rw [e1, e2]

/-! ## Path handling

The scripts build paths with `os.path.join`, `os.path.relpath` and
`os.path.splitext`.  `os.walk` only ever yields paths of the form
`root + "/" + relative_part`, and `os.path.relpath(src, root)` returns exactly
that relative part for them; `relpath` below models that case (and leaves any
other path unchanged).  `splitext` is a faithful transcription of
`posixpath.splitext`. -/

/-- Index of the last occurrence of `ch` in `cs`, or `-1` when absent: models
Python's `str.rfind`. -/
def rfind_idx (cs : List Char) (ch : Char) : Int :=
  (List.range cs.length).foldl
    (fun acc i => if cs.getD i ' ' = ch then (i : Int) else acc) (-1)

/-- `posixpath.splitext`: split off the extension at the last dot of the last
path component, except that a basename consisting only of leading dots is not
split (`.bashrc` has no extension). -/
def splitext (p : String) : String × String :=
  let cs := p.data
  let sepIndex := rfind_idx cs '/'
  let dotIndex := rfind_idx cs '.'
  if sepIndex < dotIndex then
    if (List.range cs.length).any
        (fun j => decide (sepIndex + 1 ≤ (j : Int)) && decide ((j : Int) < dotIndex)
          && (cs.getD j ' ' != '.')) then
      (⟨cs.take dotIndex.toNat⟩, ⟨cs.drop dotIndex.toNat⟩)
    else (p, "")
  else (p, "")

/-- `os.path.relpath(p, root)` for the paths this program produces: every
scanned path starts with `root + "/"`, and for those `relpath` strips that
prefix. -/
def relpath (p root : String) : String :=
  if (root.data ++ ['/']).isPrefixOf p.data then
    ⟨p.data.drop (root.data.length + 1)⟩
  else p

/-- `os.path.join(a, b)` for a relative second component. -/
def path_join (a b : String) : String := a ++ "/" ++ b

lemma relpath_join (root rel : String) : relpath (path_join root rel) root = rel := by
  unfold relpath path_join
  have hdata : (root ++ "/" ++ rel).data = (root.data ++ ['/']) ++ rel.data := by
    simp [String.data_append]
  rw [hdata]
  have hpre : ((root.data ++ ['/']).isPrefixOf ((root.data ++ ['/']) ++ rel.data)) = true := by
    rw [List.isPrefixOf_iff_prefix]
    exact List.prefix_append _ _
  rw [if_pos hpre]
  have hlen : root.data.length + 1 = (root.data ++ ['/']).length := by simp
  rw [hlen, List.drop_left]

/-- `fn.lower().endswith(SUPPORTED_EXTS)` with
`SUPPORTED_EXTS = (".mp3", ".wav")` (`acx-fix-v1.py` lines 15 and 27); the
lowering is ASCII, which covers the extensions compared against. -/
def supported_ext (fn : String) : Bool :=
  let lower : List Char := fn.data.map Char.toLower
  ".mp3".data.isSuffixOf lower || ".wav".data.isSuffixOf lower

/-! ## Scan phase, duplicate detection and channel policy -/

/-- `analyze_directory` (`acx-fix-v1.py` lines 22-42): walk the tree (the walk
order is the `paths` argument), skip unsupported extensions, decode each file
— a decode failure is caught, reported and the file dropped — and collect one
`AudioRecord` per successfully decoded file.  Decoding (`pydub`) and hashing
(`hashlib.md5`) are external; they enter as the oracles `decode` and `hash`. -/
def analyze_directory (decode : String → Option AudioSegmentData)
    (hash : List ℕ → String) (paths : List String) : List AudioRecord :=
  paths.filterMap (fun p =>
    if supported_ext p then
      (decode p).map (fun a =>
        { path := p, duration := a.length_ms, channels := a.channels,
          dBFS := a.dBFS, md5 := hash a.raw_data })
    else none)

/-- One step of building the insertion-ordered digest table
`dups = defaultdict(list); dups[m["md5"]].append(m["path"])`: append `v` to
the first entry whose key is `k`, or add a new `(k, [v])` entry at the end. -/
def insert_group (acc : List (String × List String)) (k v : String) :
    List (String × List String) :=
  match acc with
  | [] => [(k, [v])]
  | (k1, vs) :: rest =>
      if k1 = k then (k1, vs ++ [v]) :: rest else (k1, vs) :: insert_group rest k v

/-- The digest table of `report_duplicates` (`acx-fix-v1.py` lines 46-48):
keys in first-seen order, each key's paths in scan order, exactly as a Python
`defaultdict` preserves insertion order. -/
def group_by_md5 (meta : List AudioRecord) : List (String × List String) :=
  meta.foldl (fun acc m => insert_group acc m.md5 m.path) []

/-- The list of paths stored under digest `dg` (first matching entry). -/
def lookup_group (acc : List (String × List String)) (dg : String) : List String :=
  match acc with
  | [] => []
  | (k, vs) :: rest => if k = dg then vs else lookup_group rest dg

/-- `report_duplicates` (`acx-fix-v1.py` lines 44-54): the groups of paths
sharing a digest, restricted to groups of size at least 2, in first-seen
order.  The printing side effect is irrelevant to the returned value. -/
def report_duplicates (meta : List AudioRecord) : List (List String) :=
  (group_by_md5 meta).filterMap
    (fun kv => if 1 < kv.2.length then some kv.2 else none)

/-- `next(m["md5"] for m in meta if m["path"] == dup_path)`
(`acx-fix-v1.py` line 129): the digest of the first record with the given
path.  The generator's `StopIteration` cannot occur because every reported
path is the path of some record of `meta`. -/
def md5_of_path (meta : List AudioRecord) (p : String) : String :=
  ((meta.find? (fun m => m.path == p)).map (fun m => m.md5)).getD ""

/-- The `skip_md5` set built in `__main__` (`acx-fix-v1.py` lines 125-130):
for every duplicate group, the digest of each member after the first («keep
first, skip the rest») is added.  Python uses a `set`; a list with membership
testing models it. -/
def skip_md5 (meta : List AudioRecord) : List String :=
  (report_duplicates meta).foldl
    (fun acc grp => acc ++ (grp.drop 1).map (md5_of_path meta)) []

/-- The records `process_file` does not skip: those whose digest is not in
`skip_md5` (`acx-fix-v1.py` line 73). -/
def non_skipped (meta : List AudioRecord) : List AudioRecord :=
  meta.filter (fun m => !(skip_md5 meta).contains m.md5)

/-- `decide_target_channels` (`acx-fix-v1.py` lines 56-58):
`2 if any(m["channels"] > 1 for m in meta) else 1`.  Note the call site
(line 133) passes the full `meta` list, not the non-skipped records. -/
def decide_target_channels (meta : List AudioRecord) : ℕ :=
  if meta.any (fun m => 1 < m.channels) then 2 else 1

/-! ## Gain computation -/

/-- The gain computation `gain = TARGET_RMS_DBFS - audio.dBFS`
(`acx-fix-v1.py` line 85), with IEEE semantics for the infinities:
`finite - (-inf) = +inf` and `finite - (+inf) = -inf`. -/
def compute_gain (target : ℚ) (measured : PyFloat) : PyFloat :=
  match measured with
  | PyFloat.fin m => PyFloat.fin (target - m)
  | PyFloat.negInf => PyFloat.posInf
  | PyFloat.posInf => PyFloat.negInf

/-! ## Export naming and the per-file processing loop -/

/-- The export loop of `process_file` (`acx-fix-v1.py` lines 95-99): the
output paths, in order, for a file at `src` of normalized duration
`duration_ms`: relative path under `in_root`, extension stripped, `_part{idx}`
with 1-based `idx` appended exactly when there is more than one chunk, then
the fixed `.mp3` extension, joined under `out_root`. -/
def export_names (src in_root out_root : String) (duration_ms chunk_ms : ℕ) :
    List String :=
  let chunks := split_into_chunks duration_ms chunk_ms
  let base := (splitext (relpath src in_root)).1
  (List.range chunks.length).map (fun k =>
    path_join out_root
      (base ++ (if 1 < chunks.length then "_part" ++ toString (k + 1) else "") ++ ".mp3"))

/-- `process_file` (`acx-fix-v1.py` lines 69-108): skip the file if its digest
is in `skip` (before any decoding); otherwise re-decode it — this decode is
*not* wrapped in a handler, so a failure propagates, modelled by
`Except.error` — convert channels (length-preserving), normalize (the gain of
line 85 is `compute_gain`; applying gain does not change the duration), split
into chunks and export.  The returned value is the ordered list of written
output paths. -/
def process_file (decode : String → Option AudioSegmentData) (info : AudioRecord)
    (target_ch : ℕ) (skip : List String) (in_root out_root : String)
    (chunk_ms : ℕ) : Except String (List String) :=
  if skip.contains info.md5 then Except.ok []
  else
    match decode info.path with
    | none => Except.error info.path
    | some audio =>
        let audio1 := if audio.channels ≠ target_ch
          then { audio with channels := target_ch } else audio
        Except.ok (export_names info.path in_root out_root audio1.length_ms chunk_ms)

/-- The driver loop `for info in meta: process_file(...)` (`acx-fix-v1.py`
lines 138-139).  An uncaught exception in `process_file` aborts the loop, so
an error stops the batch and the remaining files are never processed.  On
success the writes of all files are concatenated in order. -/
def run_batch (decode : String → Option AudioSegmentData)
    (meta : List AudioRecord) (target_ch : ℕ) (skip : List String)
    (in_root out_root : String) (chunk_ms : ℕ) : Except String (List String) :=
  match meta with
  | [] => Except.ok []
  | info :: rest =>
      match process_file decode info target_ch skip in_root out_root chunk_ms with
      | Except.error e => Except.error e
      | Except.ok outs =>
          match run_batch decode rest target_ch skip in_root out_root chunk_ms with
          | Except.error e => Except.error e
          | Except.ok rest_outs => Except.ok (outs ++ rest_outs)

/-! ## Supporting lemmas about the pipeline -/

lemma process_file_eq {decode : String → Option AudioSegmentData}
    {info : AudioRecord} {tc : ℕ} {skip : List String}
    {in_root out_root : String} {cm : ℕ} {a : AudioSegmentData}
    (hskip : skip.contains info.md5 = false) (hdec : decode info.path = some a) :
    process_file decode info tc skip in_root out_root cm =
      Except.ok (export_names info.path in_root out_root a.length_ms cm) := by
  unfold process_file
  rw [hskip]
  simp only [Bool.false_eq_true, if_false, hdec]
  by_cases hch : a.channels ≠ tc <;> simp [hch]

lemma lookup_insert (acc : List (String × List String)) (k v dg : String) :
    lookup_group (insert_group acc k v) dg =
      lookup_group acc dg ++ (if dg = k then [v] else []) := by
  induction acc with
  | nil =>
      by_cases h : k = dg
      · simp [insert_group, lookup_group, h]
      · have h2 : ¬(dg = k) := fun hh => h hh.symm
        simp [insert_group, lookup_group, h, h2]
  | cons hd tl ih =>
      obtain ⟨k1, vs⟩ := hd
      by_cases h1 : k1 = k
      · subst h1
        by_cases h2 : k1 = dg
        · subst h2
          simp [insert_group, lookup_group]
        · have h3 : ¬(dg = k1) := fun hh => h2 hh.symm
          simp [insert_group, lookup_group, h2, h3]
      · by_cases h2 : k1 = dg
        · have h3 : ¬(dg = k) := fun hh => h1 (h2.trans hh)
          simp [insert_group, lookup_group, h1, h2, h3]
        · simp [insert_group, lookup_group, h1, h2, ih]

lemma lookup_group_fold (l : List AudioRecord) :
    ∀ (acc : List (String × List String)) (dg : String),
      lookup_group (l.foldl (fun a m => insert_group a m.md5 m.path) acc) dg =
        lookup_group acc dg ++ (l.filter (fun r => r.md5 == dg)).map (fun r => r.path) := by
  induction l with
  | nil => intro acc dg; simp
  | cons m rest ih =>
      intro acc dg
      simp only [List.foldl_cons, List.filter_cons]
      rw [ih, lookup_insert]
      by_cases h : m.md5 = dg
      · have hb : (m.md5 == dg) = true := by simp [h]
        simp [hb, h]
      · have hb : (m.md5 == dg) = false := by simp [h]
        have h2 : ¬(dg = m.md5) := fun hh => h hh.symm
        simp [hb, h2]

/-! ## Concrete fixtures used by the counterexamples and witnesses -/

/-- A small decodable buffer: mono, 1000 ms, already at the target loudness. -/
def audio_small : AudioSegmentData := ⟨[], 1, 1000, PyFloat.fin (-20)⟩

/-- A decode oracle that succeeds on every path with the same buffer. -/
def decode_const (a : AudioSegmentData) : String → Option AudioSegmentData :=
  fun _ => some a

/-- Three scanned files with byte-identical content (digest `X`). -/
def recA1 : AudioRecord := ⟨"in/a.mp3", 1000, 1, PyFloat.fin (-20), "X"⟩
def recB1 : AudioRecord := ⟨"in/b.mp3", 1000, 1, PyFloat.fin (-20), "X"⟩
def recC1 : AudioRecord := ⟨"in/c.mp3", 1000, 1, PyFloat.fin (-20), "X"⟩
def metaC1 : List AudioRecord := [recA1, recB1, recC1]

/-- A batch whose only stereo file is a skipped duplicate: records 1 and 2
share digest `X` (byte-identical PCM read with different channel metadata —
the digest hashes raw bytes only), record 3 is a distinct mono file. -/
def metaC3 : List AudioRecord :=
  [⟨"in/a.mp3", 1000, 1, PyFloat.fin (-20), "X"⟩,
   ⟨"in/b.mp3", 1000, 2, PyFloat.fin (-20), "X"⟩,
   ⟨"in/c.mp3", 1000, 1, PyFloat.fin (-20), "Y"⟩]

/-- A single stereo file. -/
def recStereo : AudioRecord := ⟨"in/s.mp3", 1000, 2, PyFloat.fin (-20), "Z"⟩

/-- A file that was readable during the scan but whose re-decode inside
`process_file` fails (e.g. deleted or truncated between the two reads),
followed by a perfectly good file. -/
def recBad : AudioRecord := ⟨"in/bad.mp3", 1000, 1, PyFloat.fin (-20), "B"⟩
def recGood : AudioRecord := ⟨"in/good.mp3", 1000, 1, PyFloat.fin (-20), "G"⟩

/-- Decode oracle for the processing phase: fails on `in/bad.mp3` only. -/
def decodeC4 : String → Option AudioSegmentData :=
  fun p => if p = "in/bad.mp3" then none else some audio_small

/-- Two distinct source files whose names differ only in the stripped
extension, so both resolve to the output path `out/a.mp3`. -/
def recA5 : AudioRecord := ⟨"in/a.mp3", 1000, 1, PyFloat.fin (-20), "X"⟩
def recB5 : AudioRecord := ⟨"in/a.wav", 1000, 1, PyFloat.fin (-20), "Y"⟩
def metaC5 : List AudioRecord := [recA5, recB5]

/-- A 150-minute buffer (9 000 000 ms) and a 30-minute buffer (1 800 000 ms). -/
def audio150 : AudioSegmentData := ⟨[], 1, 9000000, PyFloat.fin (-23)⟩
def audio30 : AudioSegmentData := ⟨[], 1, 1800000, PyFloat.fin (-23)⟩
def rec150 : AudioRecord := ⟨"in/book.wav", 9000000, 1, PyFloat.fin (-23), "H1"⟩
def rec30 : AudioRecord := ⟨"in/intro.mp3", 1800000, 1, PyFloat.fin (-23), "H2"⟩

/-! ## Claims -/

/-- C1 (code_bug evaluation): for a 3-member identical group the claim (and
the source's own comment «keep first, skip the rest») demands exactly 2
skipped and 1 kept and exported; the code instead adds the *shared* digest of
the group to `skip_md5`, so all 3 members are skipped, none is kept, and the
batch produces no output at all. -/
theorem skip_md5_skips_entire_group :
    (metaC1.filter (fun r => r.md5 == "X")).length = 3
  ∧ skip_md5 metaC1 = ["X", "X"]
  ∧ non_skipped metaC1 = []
  ∧ run_batch (decode_const audio_small) metaC1 (decide_target_channels metaC1)
      (skip_md5 metaC1) "in" "out" MAX_DURATION_MS = Except.ok [] :=
  ⟨rfl, rfl, rfl, rfl⟩

/-- C2 counterexample: at `duration_ms = 0` (and `max_segment_ms = 5`) the
Segmenter returns no segment at all, refuting «exactly one segment whenever
`duration_ms ≤ max_segment_ms`» as stated for every `duration_ms ≥ 0`. -/
theorem segmenter_zero_duration_counterexample :
    (0 : ℕ) ≤ 5 ∧ (0 : ℕ) < 5 ∧ split_into_chunks 0 5 = []
  ∧ (split_into_chunks 0 5).length ≠ 1 :=
  ⟨by decide, by decide, rfl, by decide⟩

/-- C2 amended: for every `duration_ms ≥ 0` and `max_segment_ms > 0` the
segments are contiguous, non-empty, of length at most `max_segment_ms`,
non-overlapping, cover `[0, duration_ms)` exactly, start at 0 and end exactly
at `duration_ms` whenever at least one segment exists; there is exactly one
segment iff `0 < duration_ms ≤ max_segment_ms`, and no segment at all iff
`duration_ms = 0`. -/
theorem split_into_chunks_spec (d c : ℕ) (hc : 0 < c) :
    (∀ i, ∀ hi : i < (split_into_chunks d c).length,
       ∀ hj : i + 1 < (split_into_chunks d c).length,
        ((split_into_chunks d c).get ⟨i, hi⟩).2 =
          ((split_into_chunks d c).get ⟨i + 1, hj⟩).1)
  ∧ (∀ p ∈ split_into_chunks d c, p.1 < p.2 ∧ p.2 - p.1 ≤ c)
  ∧ (∀ t, t < d ↔ ∃ p ∈ split_into_chunks d c, p.1 ≤ t ∧ t < p.2)
  ∧ (∀ i j, ∀ hi : i < (split_into_chunks d c).length,
       ∀ hj : j < (split_into_chunks d c).length, i < j →
        ((split_into_chunks d c).get ⟨i, hi⟩).2 ≤
          ((split_into_chunks d c).get ⟨j, hj⟩).1)
  ∧ (∀ h0 : 0 < (split_into_chunks d c).length,
        ((split_into_chunks d c).get ⟨0, h0⟩).1 = 0
      ∧ ((split_into_chunks d c).get
            ⟨(split_into_chunks d c).length - 1, by omega⟩).2 = d)
  ∧ ((split_into_chunks d c).length = 1 ↔ 0 < d ∧ d ≤ c)
  ∧ (split_into_chunks d c = [] ↔ d = 0) := by
  have hlen := split_into_chunks_length d c
  refine ⟨?_, ?_, ?_, ?_, ?_, ?_, ?_⟩
  · intro i hi hj
    rw [split_into_chunks_get, split_into_chunks_get]
    have h1 : i + 1 < ceil_div d c := by omega
    have h2 := (lt_ceil_div_iff hc).mp h1
    show min ((i + 1) * c) d = (i + 1) * c
    omega
  · intro p hp
    rw [mem_split_into_chunks] at hp
    obtain ⟨i, hi, rfl⟩ := hp
    have hic := (lt_ceil_div_iff hc).mp hi
    have he : (i + 1) * c = i * c + c := by ring
    constructor
    · show i * c < min ((i + 1) * c) d
      omega
    · show min ((i + 1) * c) d - i * c ≤ c
      omega
  · intro t
    constructor
    · intro ht
      refine ⟨(t / c * c, min ((t / c + 1) * c) d), ?_, ?_, ?_⟩
      · rw [mem_split_into_chunks]
        refine ⟨t / c, ?_, rfl⟩
        rw [lt_ceil_div_iff hc]
        have := Nat.div_mul_le_self t c
        omega
      · exact Nat.div_mul_le_self t c
      · have hdm := Nat.div_add_mod t c
        have hml := Nat.mod_lt t hc
        have he : (t / c + 1) * c = t / c * c + c := by ring
        have hcm : c * (t / c) = t / c * c := by ring
        show t < min ((t / c + 1) * c) d
        omega
    · rintro ⟨p, hp, h1, h2⟩
      rw [mem_split_into_chunks] at hp
      obtain ⟨i, hi, rfl⟩ := hp
      have h3 : (i * c, min ((i + 1) * c) d).2 = min ((i + 1) * c) d := rfl
      rw [h3] at h2
      omega
  · intro i j hi hj hij
    rw [split_into_chunks_get, split_into_chunks_get]
    have h1 : (i + 1) * c ≤ j * c := mul_le_mul_right' (by omega) c
    show min ((i + 1) * c) d ≤ j * c
    omega
  · intro h0
    constructor
    · rw [split_into_chunks_get]
      show 0 * c = 0
      ring
    · rw [split_into_chunks_get]
      show min (((split_into_chunks d c).length - 1 + 1) * c) d = d
      rw [hlen] at h0 ⊢
      have he : ceil_div d c - 1 + 1 = ceil_div d c := by omega
      rw [he]
      have h2 : ¬ (ceil_div d c * c < d) :=
        fun hlt => lt_irrefl _ ((lt_ceil_div_iff hc).mpr hlt)
      omega
  · rw [hlen]
    have h0 : (0 : ℕ) < ceil_div d c ↔ 0 * c < d := lt_ceil_div_iff hc
    have h1 : (1 : ℕ) < ceil_div d c ↔ 1 * c < d := lt_ceil_div_iff hc
    omega
  · rw [← List.length_eq_zero, hlen]
    have h0 : (0 : ℕ) < ceil_div d c ↔ 0 * c < d := lt_ceil_div_iff hc
    omega

/-- C2 witness: the amended Segmenter contract applied at
`duration_ms = 5`, `max_segment_ms = 2`. -/
theorem split_into_chunks_spec_witness :
    (0 : ℕ) < 2 ∧ ((split_into_chunks 5 2).length = 1 ↔ 0 < 5 ∧ 5 ≤ 2) :=
  ⟨by decide, (split_into_chunks_spec 5 2 (by decide)).2.2.2.2.2.1⟩

/-- C6 counterexample: for a silent buffer (`measured_dbfs = -inf`) the code
computes `TARGET_RMS_DBFS - (-inf) = +inf` and applies that gain; it does not
apply the zero gain the claim demands. -/
theorem silence_gain_counterexample :
    compute_gain TARGET_RMS_DBFS PyFloat.negInf = PyFloat.posInf
  ∧ compute_gain TARGET_RMS_DBFS PyFloat.negInf ≠ PyFloat.fin 0 :=
  ⟨rfl, by decide⟩

/-- C6 amended: for every target, a `-inf` measured loudness makes the gain
computation (line 85 of `acx-fix-v1.py`) return `+inf` — there is no zero-gain
fallback and no flagging of the record; the gain expression itself does not
crash. -/
theorem compute_gain_silence (t : ℚ) :
    compute_gain t PyFloat.negInf = PyFloat.posInf := rfl

/-- C9: for every finite measured loudness the applied gain is exactly
`target_dbfs - measured_dbfs`; in particular a buffer already at the target
receives exactly 0 dB of gain, so normalization is idempotent at the target. -/
theorem finite_gain_formula (t m : ℚ) :
    compute_gain t (PyFloat.fin m) = PyFloat.fin (t - m)
  ∧ compute_gain t (PyFloat.fin t) = PyFloat.fin 0 := by
  refine ⟨rfl, ?_⟩
  simp [compute_gain]

/-- C10: for every positive duration and chunk size, the ceil-count loop of
`acx-fix-v1.py`/`acx-fix-v1b.py` (`split_into_chunks`) and the conditional
stride loop of `acx.py` (`process_split`) produce exactly the same ordered
list of segment boundaries. -/
theorem split_implementations_agree (d c : ℕ) (hd : 0 < d) (hc : 0 < c) :
    split_into_chunks d c = process_split d c :=
  split_agree_aux hd hc

/-- C10 witness: both splitting loops at duration 5 and chunk size 2. -/
theorem split_implementations_agree_witness :
    (0 : ℕ) < 5 ∧ (0 : ℕ) < 2 ∧ split_into_chunks 5 2 = process_split 5 2 :=
  ⟨by decide, by decide, split_implementations_agree 5 2 (by decide) (by decide)⟩

/-- C3 counterexample: the batch `metaC3` is non-empty, every non-skipped
record is mono, yet the policy returns 2, because `decide_target_channels` is
called on the full `meta` list (`acx-fix-v1.py` line 133) and the only stereo
record is a skipped duplicate. -/
theorem channel_policy_counterexample :
    metaC3 ≠ []
  ∧ decide_target_channels metaC3 = 2
  ∧ ∀ m ∈ non_skipped metaC3, m.channels ≤ 1 := by
  refine ⟨by decide, rfl, by decide⟩

/-- C3 amended: for every non-empty batch the channel policy is computed from
*all* scanned records, skipped duplicates included: it returns 2 iff at least
one record of the full list has more than one channel, and 1 otherwise. -/
theorem decide_target_channels_spec (meta : List AudioRecord) (h : meta ≠ []) :
    (decide_target_channels meta = 2 ↔ ∃ m ∈ meta, 1 < m.channels)
  ∧ (decide_target_channels meta = 1 ↔ ∀ m ∈ meta, m.channels ≤ 1) := by
  unfold decide_target_channels
  by_cases hany : meta.any (fun m => 1 < m.channels)
  · rw [if_pos hany]
    simp only [List.any_eq_true, decide_eq_true_eq] at hany
    obtain ⟨m, hm, hcm⟩ := hany
    refine ⟨⟨fun _ => ⟨m, hm, hcm⟩, fun _ => rfl⟩,
            ⟨fun h2 => absurd h2 (by omega), fun hall => absurd (hall m hm) (by omega)⟩⟩
  · rw [if_neg hany]
    simp only [List.any_eq_true, decide_eq_true_eq, not_exists, not_and] at hany
    push_neg at hany
    refine ⟨⟨fun h1 => absurd h1 (by omega), ?_⟩, ⟨fun _ => fun m hm => ?_, fun _ => rfl⟩⟩
    · rintro ⟨m, hm, hcm⟩
      exact absurd hcm (by have := hany m hm; omega)
    · have := hany m hm
      omega

/-- C3 witness: the amended channel policy applied to a one-record stereo
batch. -/
theorem decide_target_channels_spec_witness :
    ([recStereo] ≠ []) ∧ decide_target_channels [recStereo] = 2 :=
  ⟨by decide,
   (decide_target_channels_spec [recStereo] (by decide)).1.mpr
     ⟨recStereo, by simp, by decide⟩⟩

/-- C4 (code_bug evaluation): the scan phase isolates the decode failure of
`in/bad.mp3` (the other file is still analyzed), but the unguarded re-decode
inside `process_file` (`acx-fix-v1.py` line 77) propagates, so the batch run
aborts with the error and `in/good.mp3` — which processes fine on its own —
is never processed, contradicting «a decode failure causes only that file to
be skipped at every stage». -/
theorem run_batch_aborts_on_decode_error :
    analyze_directory decodeC4 (fun _ => "H") ["in/bad.mp3", "in/good.mp3"] =
      [⟨"in/good.mp3", 1000, 1, PyFloat.fin (-20), "H"⟩]
  ∧ run_batch decodeC4 [recBad, recGood] 1 [] "in" "out" MAX_DURATION_MS =
      Except.error "in/bad.mp3"
  ∧ run_batch decodeC4 [recGood] 1 [] "in" "out" MAX_DURATION_MS =
      Except.ok ["out/good.mp3"] :=
  ⟨rfl, rfl, rfl⟩

/-- C5 counterexample: `in/a.mp3` and `in/a.wav` are distinct inputs that
resolve to the same output path `out/a.mp3`; the run completes without any
error and writes that path twice — the second export silently overwrites the
first instead of failing loudly before writing. -/
theorem export_collision_counterexample :
    recA5.path ≠ recB5.path
  ∧ export_names recA5.path "in" "out" 1000 MAX_DURATION_MS = ["out/a.mp3"]
  ∧ export_names recB5.path "in" "out" 1000 MAX_DURATION_MS = ["out/a.mp3"]
  ∧ run_batch (decode_const audio_small) metaC5 (decide_target_channels metaC5)
      (skip_md5 metaC5) "in" "out" MAX_DURATION_MS =
        Except.ok ["out/a.mp3", "out/a.mp3"]
  ∧ ¬ (["out/a.mp3", "out/a.mp3"] : List String).Nodup :=
  ⟨by decide, rfl, rfl, rfl, by decide⟩

/-- C5 amended: the pipeline performs no output-path collision check: whenever
the batch run completes, every segment output of every non-skipped,
successfully decoded file appears among the written paths — also when two
distinct inputs resolve to the same output path, in which case the later
write silently overwrites the earlier one. -/
theorem run_batch_writes_unguarded (decode : String → Option AudioSegmentData)
    (tc : ℕ) (skip : List String) (in_root out_root : String) (chunk : ℕ) :
    ∀ (meta : List AudioRecord) (outs : List String),
      run_batch decode meta tc skip in_root out_root chunk = Except.ok outs →
      ∀ m ∈ meta, skip.contains m.md5 = false →
        ∀ a, decode m.path = some a →
          ∀ name ∈ export_names m.path in_root out_root a.length_ms chunk,
            name ∈ outs := by
  intro meta
  induction meta with
  | nil =>
      intro outs hrun m hm
      simp at hm
  | cons m0 rest ih =>
      intro outs hrun m hm hskip a hdec name hname
      unfold run_batch at hrun
      cases hp : process_file decode m0 tc skip in_root out_root chunk with
      | error e => rw [hp] at hrun; exact absurd hrun (by simp)
      | ok o1 =>
          rw [hp] at hrun
          cases hr : run_batch decode rest tc skip in_root out_root chunk with
          | error e => rw [hr] at hrun; exact absurd hrun (by simp)
          | ok o2 =>
              rw [hr] at hrun
              simp only [Except.ok.injEq] at hrun
              subst hrun
              rcases List.mem_cons.mp hm with rfl | hm2
              · have heq := (process_file_eq hskip hdec).symm.trans hp
                simp only [Except.ok.injEq] at heq
                exact List.mem_append.mpr (Or.inl (heq ▸ hname))
              · exact List.mem_append.mpr
                  (Or.inr (ih o2 hr m hm2 hskip a hdec name hname))

/-- C5 witness: the unguarded-write theorem applied to the colliding batch
`metaC5`: both outputs of `in/a.mp3` land among the written paths even though
`in/a.wav` writes the same path. -/
theorem run_batch_writes_unguarded_witness :
    "out/a.mp3" ∈ export_names recA5.path "in" "out" audio_small.length_ms MAX_DURATION_MS
  ∧ "out/a.mp3" ∈ (["out/a.mp3", "out/a.mp3"] : List String) :=
  ⟨by decide,
   run_batch_writes_unguarded (decode_const audio_small)
     (decide_target_channels metaC5) (skip_md5 metaC5) "in" "out" MAX_DURATION_MS
     metaC5 ["out/a.mp3", "out/a.mp3"] rfl recA5 (by decide) (by decide)
     audio_small rfl "out/a.mp3" (by decide)⟩

/-- C7: for every source file under the input root, every decodable buffer
and every positive chunk size, the outputs are named by the relative path
with the extension stripped, a 1-based `_part{index}` suffix appended exactly
when the chunk count exceeds 1, and the fixed `.mp3` extension appended; in
particular a file fitting in a single chunk yields exactly one output with no
suffix. -/
theorem export_naming_spec (decode : String → Option AudioSegmentData)
    (info : AudioRecord) (tc : ℕ) (skip : List String)
    (root out_root rel : String) (a : AudioSegmentData) (c : ℕ)
    (hpath : info.path = path_join root rel)
    (hdec : decode info.path = some a)
    (hskip : skip.contains info.md5 = false)
    (hc : 0 < c) :
    process_file decode info tc skip root out_root c =
      Except.ok ((List.range (ceil_div a.length_ms c)).map (fun k =>
        path_join out_root ((splitext rel).1 ++
          (if 1 < ceil_div a.length_ms c then "_part" ++ toString (k + 1) else "")
          ++ ".mp3")))
  ∧ (0 < a.length_ms → a.length_ms ≤ c →
      process_file decode info tc skip root out_root c =
        Except.ok [path_join out_root ((splitext rel).1 ++ ".mp3")]) := by
  have hmain : process_file decode info tc skip root out_root c =
      Except.ok ((List.range (ceil_div a.length_ms c)).map (fun k =>
        path_join out_root ((splitext rel).1 ++
          (if 1 < ceil_div a.length_ms c then "_part" ++ toString (k + 1) else "")
          ++ ".mp3"))) := by
    rw [process_file_eq hskip hdec, hpath]
    simp only [export_names, relpath_join, split_into_chunks_length]
  refine ⟨hmain, fun h1 h2 => ?_⟩
  have hone : ceil_div a.length_ms c = 1 := by
    have g0 : (0 : ℕ) < ceil_div a.length_ms c ↔ 0 * c < a.length_ms :=
      lt_ceil_div_iff hc
    have g1 : (1 : ℕ) < ceil_div a.length_ms c ↔ 1 * c < a.length_ms :=
      lt_ceil_div_iff hc
    omega
  rw [hmain, hone]
  have hr : List.range 1 = [0] := rfl
  rw [hr, List.map_cons, List.map_nil]
  simp

/-- C7 witness: a 150-minute file with `max_segment_ms` = 119 m 58 s yields
exactly `out/book_part1.mp3` and `out/book_part2.mp3`; a 30-minute file
yields exactly `out/intro.mp3` with no suffix. -/
theorem export_naming_spec_witness :
    process_file (decode_const audio150) rec150 1 [] "in" "out" CHUNK_SIZE_MS =
      Except.ok ["out/book_part1.mp3", "out/book_part2.mp3"]
  ∧ process_file (decode_const audio30) rec30 1 [] "in" "out" CHUNK_SIZE_MS =
      Except.ok ["out/intro.mp3"] := by
  constructor
  · have h := export_naming_spec (decode_const audio150) rec150 1 []
      "in" "out" "book.wav" audio150 CHUNK_SIZE_MS rfl rfl rfl (by decide)
    rw [h.1]
    rfl
  · have h := export_naming_spec (decode_const audio30) rec30 1 []
      "in" "out" "intro.mp3" audio30 CHUNK_SIZE_MS rfl rfl rfl (by decide)
    rw [h.2 (by decide) (by decide)]
    rfl

/-- C8: duplicate resolution is a pure function of the scan-ordered record
list — two runs over equal lists give identical groupings, skip sets and
kept/skipped partitions — and the digest table of `report_duplicates` keeps,
for every digest, exactly the paths of the records carrying that digest in
scan order (first-seen order preserved within each group). -/
theorem dedup_deterministic (m1 m2 : List AudioRecord) (h : m1 = m2) :
    (group_by_md5 m1 = group_by_md5 m2
      ∧ report_duplicates m1 = report_duplicates m2
      ∧ skip_md5 m1 = skip_md5 m2
      ∧ non_skipped m1 = non_skipped m2)
  ∧ ∀ dg, lookup_group (group_by_md5 m1) dg =
      (m1.filter (fun r => r.md5 == dg)).map (fun r => r.path) := by
  subst h
  refine ⟨⟨rfl, rfl, rfl, rfl⟩, ?_⟩
  intro dg
  unfold group_by_md5
  rw [lookup_group_fold]
  simp [lookup_group]

/-- C8 witness: the duplicate grouping of `metaC3`, whose digest `X` group
lists its two paths in scan order. -/
theorem dedup_deterministic_witness :
    lookup_group (group_by_md5 metaC3) "X" = ["in/a.mp3", "in/b.mp3"] := by
  have h := (dedup_deterministic metaC3 metaC3 rfl).2 "X"
  rw [h]
  rfl
